/-
Verification of the img2bag image-to-bag converter against its design
specification.

The development shallowly embeds the Python sources (src/img2bag/utils.py,
src/img2bag/img2bag_converter.py, src/img2bag/__main__.py) in Lean 4.

Modelling conventions:
  * Python float arithmetic is idealised as exact rational arithmetic (ℚ).
    Every divergence established below is structural (it already holds in
    exact arithmetic) and is not an artefact of binary floating point.
  * Python `int(x)` truncates toward zero; it is modelled by `pyInt`.
    Python `x % y` for `y > 0` returns `x - y*⌊x/y⌋`; it is modelled by
    `pyFMod`.
  * Python `pathlib.PurePath` (POSIX flavour) is modelled by `purePathStr`:
    arguments are parsed into an optional root and components, an absolute
    argument discards everything before it, empty and "." components are
    collapsed, a path reduced to nothing renders as ".".
  * Behaviour of external collaborators that the sources call with specific
    configurations is modelled from those collaborators' documented
    semantics: PIL (pixel modes, band counts, resize), natsort (the
    `natsorted` call with `ns.PATH | ns.IGNORECASE | ns.REAL`), and
    jsonargparse (`path_type('dr')` validates each directory against the
    filesystem while parsing).  Each such model carries a comment saying so.
-/

import Mathlib

/-! ## Numeric primitives (src/img2bag/utils.py) -/

/-- Model of Python `int(x)`: truncation toward zero. -/
def pyInt (x : ℚ) : ℤ := if 0 ≤ x then ⌊x⌋ else ⌈x⌉

/-- Model of Python float `x % y` for positive `y`: `x - y*⌊x/y⌋`. -/
def pyFMod (x y : ℚ) : ℚ := x - y * ⌊x / y⌋

/-- Embedding of `utils.split_unix_timestamp`:
`sec = int(timestamp)`, `nsec = int((timestamp * 1e9) % 1e9)`. -/
def split_unix_timestamp (t : ℚ) : ℤ × ℤ :=
  (pyInt t, pyInt (pyFMod (t * 10 ^ 9) (10 ^ 9)))

/-- Embedding of the cursor advance in `Img2BagConverter._convert_image_to_topic`:
`sec, nsec = split_unix_timestamp((sec + 1 / self._rate) + nsec * 1e-9)`. -/
def seqNext (rate : ℚ) (p : ℤ × ℤ) : ℤ × ℤ :=
  split_unix_timestamp ((p.1 + 1 / rate) + p.2 * (1 / 10 ^ 9))

/-- The sequence of (sec, nsec) pairs handed to the first `n` successfully
written files of one channel, starting from cursor `p`. -/
def stampSeqAux (rate : ℚ) : ℤ × ℤ → ℕ → List (ℤ × ℤ)
  | _, 0 => []
  | p, n + 1 => p :: stampSeqAux rate (seqNext rate p) n

/-- Timestamps of the first `n` successful files of a channel whose sequencer
starts at `t0`, as produced by `_convert_image_to_topic`. -/
def stampSeq (rate t0 : ℚ) (n : ℕ) : List (ℤ × ℤ) :=
  stampSeqAux rate (split_unix_timestamp t0) n

/-! ### Facts about the timestamp decomposition -/

theorem pyInt_of_nonneg {x : ℚ} (h : 0 ≤ x) : pyInt x = ⌊x⌋ := if_pos h

theorem split_unix_timestamp_eq (t : ℚ) (ht : 0 ≤ t) :
    split_unix_timestamp t = (⌊t⌋, ⌊t * 10 ^ 9⌋ - 10 ^ 9 * ⌊t⌋) := by
  have h9 : ((10 : ℚ) ^ 9) ≠ 0 := by norm_num
  have hmod : pyFMod (t * 10 ^ 9) (10 ^ 9) = t * 10 ^ 9 - 10 ^ 9 * ⌊t⌋ := by
    unfold pyFMod
    rw [mul_div_assoc, div_self h9, mul_one]
  have hfr : (0 : ℚ) ≤ t * 10 ^ 9 - 10 ^ 9 * ⌊t⌋ := by
    have : (⌊t⌋ : ℚ) ≤ t := Int.floor_le t
    nlinarith
  unfold split_unix_timestamp
  rw [hmod, pyInt_of_nonneg ht, pyInt_of_nonneg hfr]
  have : t * 10 ^ 9 - 10 ^ 9 * (⌊t⌋ : ℚ) = t * 10 ^ 9 - ((10 ^ 9 * ⌊t⌋ : ℤ) : ℚ) := by
    push_cast; ring
  rw [this, Int.floor_sub_int]

theorem split_snd_nonneg (t : ℚ) (ht : 0 ≤ t) : 0 ≤ (split_unix_timestamp t).2 := by
  rw [split_unix_timestamp_eq t ht]
  have : (10 ^ 9 * ⌊t⌋ : ℤ) ≤ ⌊t * 10 ^ 9⌋ := by
    rw [Int.le_floor]
    have : (⌊t⌋ : ℚ) ≤ t := Int.floor_le t
    push_cast
    nlinarith
  simpa using this

theorem split_snd_lt (t : ℚ) (ht : 0 ≤ t) : (split_unix_timestamp t).2 < 10 ^ 9 := by
  rw [split_unix_timestamp_eq t ht]
  have : ⌊t * 10 ^ 9⌋ < 10 ^ 9 * ⌊t⌋ + 10 ^ 9 := by
    rw [Int.floor_lt]
    have : t < ⌊t⌋ + 1 := Int.lt_floor_add_one t
    push_cast
    nlinarith
  omega

theorem split_fst_nonneg (t : ℚ) (ht : 0 ≤ t) : 0 ≤ (split_unix_timestamp t).1 := by
  rw [split_unix_timestamp_eq t ht]
  exact Int.floor_nonneg.2 ht

theorem split_value (t : ℚ) (ht : 0 ≤ t) :
    (split_unix_timestamp t).1 * 10 ^ 9 + (split_unix_timestamp t).2 = ⌊t * 10 ^ 9⌋ := by
  rw [split_unix_timestamp_eq t ht]
  ring

/-- A cursor pair that can arise in the sequencer loop: the decomposition of
some nonnegative rational instant. -/
def GoodPair (p : ℤ × ℤ) : Prop := ∃ c : ℚ, 0 ≤ c ∧ p = split_unix_timestamp c

theorem goodPair_split (t : ℚ) (ht : 0 ≤ t) : GoodPair (split_unix_timestamp t) :=
  ⟨t, ht, rfl⟩

theorem goodPair_cursor_nonneg {rate : ℚ} (hr : 0 < rate) {p : ℤ × ℤ} (hp : GoodPair p) :
    (0 : ℚ) ≤ (p.1 + 1 / rate) + p.2 * (1 / 10 ^ 9) := by
  obtain ⟨c, hc, rfl⟩ := hp
  have h1 : (0 : ℤ) ≤ (split_unix_timestamp c).1 := split_fst_nonneg c hc
  have h2 : (0 : ℤ) ≤ (split_unix_timestamp c).2 := split_snd_nonneg c hc
  have hrr : (0 : ℚ) < 1 / rate := by positivity
  have c1 : (0 : ℚ) ≤ ((split_unix_timestamp c).1 : ℚ) := by exact_mod_cast h1
  have c2 : (0 : ℚ) ≤ ((split_unix_timestamp c).2 : ℚ) := by exact_mod_cast h2
  have : (0 : ℚ) ≤ ((split_unix_timestamp c).2 : ℚ) * (1 / 10 ^ 9) := by positivity
  nlinarith

theorem goodPair_next {rate : ℚ} (hr : 0 < rate) {p : ℤ × ℤ} (hp : GoodPair p) :
    GoodPair (seqNext rate p) :=
  ⟨(p.1 + 1 / rate) + p.2 * (1 / 10 ^ 9), goodPair_cursor_nonneg hr hp, rfl⟩

theorem seqNext_value_mono {rate : ℚ} (hr : 0 < rate) {p : ℤ × ℤ} (hp : GoodPair p) :
    p.1 * 10 ^ 9 + p.2 ≤ (seqNext rate p).1 * 10 ^ 9 + (seqNext rate p).2 := by
  have hc : (0 : ℚ) ≤ (p.1 + 1 / rate) + p.2 * (1 / 10 ^ 9) := goodPair_cursor_nonneg hr hp
  unfold seqNext
  rw [split_value _ hc]
  rw [Int.le_floor]
  have hrr : (0 : ℚ) < 1 / rate := by positivity
  push_cast
  nlinarith

theorem goodPair_snd_bounds {p : ℤ × ℤ} (hp : GoodPair p) : 0 ≤ p.2 ∧ p.2 < 10 ^ 9 := by
  obtain ⟨c, hc, rfl⟩ := hp
  exact ⟨split_snd_nonneg c hc, split_snd_lt c hc⟩

theorem stampSeqAux_bounds_chain (rate : ℚ) (hr : 0 < rate) (n : ℕ) :
    ∀ p : ℤ × ℤ, GoodPair p →
      (∀ q ∈ stampSeqAux rate p n, 0 ≤ q.2 ∧ q.2 < 10 ^ 9) ∧
      List.Chain' (fun a b : ℤ × ℤ => a.1 * 10 ^ 9 + a.2 ≤ b.1 * 10 ^ 9 + b.2)
        (stampSeqAux rate p n) := by
  induction n with
  | zero => intro p _; simp [stampSeqAux]
  | succ n ih =>
    intro p hp
    have hnext : GoodPair (seqNext rate p) := goodPair_next hr hp
    obtain ⟨ihb, ihc⟩ := ih (seqNext rate p) hnext
    constructor
    · intro q hq
      rcases (by simpa [stampSeqAux] using hq : q = p ∨ q ∈ stampSeqAux rate (seqNext rate p) n) with
        h | h
      · subst h; exact goodPair_snd_bounds hp
      · exact ihb q h
    · show List.Chain' _ (p :: stampSeqAux rate (seqNext rate p) n)
      rw [List.chain'_cons']
      refine ⟨?_, ihc⟩
      intro b hb
      cases n with
      | zero => simp [stampSeqAux] at hb
      | succ m =>
        have hbe : seqNext rate p = b := by simpa [stampSeqAux] using hb
        subst hbe
        exact seqNext_value_mono hr hp

/-! ### Claim C1 -/

/-- C1 counterexample: with rate 3 and start time 0 the fourth timestamp the
code assigns is (0, 999999999), not the decomposition (1, 0) of t0 + 3/r:
because the cursor is rebuilt from the emitted (sec, nsec) pair before each
advance, the sequence is not the decomposition of t0, t0+1/r, t0+2/r, .... -/
theorem c1_counterexample :
    stampSeq 3 0 4 = [(0, 0), (0, 333333333), (0, 666666666), (0, 999999999)] ∧
    split_unix_timestamp (0 + 3 / 3) = (1, 0) ∧
    stampSeq 3 0 4 ≠ [split_unix_timestamp (0 + 0 / 3), split_unix_timestamp (0 + 1 / 3),
      split_unix_timestamp (0 + 2 / 3), split_unix_timestamp (0 + 3 / 3)] := by
  have h : stampSeq 3 0 4 = [(0, 0), (0, 333333333), (0, 666666666), (0, 999999999)] := by
    norm_num [stampSeq, stampSeqAux, seqNext, split_unix_timestamp, pyInt, pyFMod]
  have h3 : split_unix_timestamp (0 + 3 / 3) = (1, 0) := by
    norm_num [split_unix_timestamp, pyInt, pyFMod]
  refine ⟨h, h3, ?_⟩
  rw [h, h3]
  simp

/-- C1 (amended): the timestamps assigned to successfully written files follow
the requantised-cursor recurrence `stampSeq` (the cursor is rebuilt from the
emitted (sec, nsec) pair, i.e. truncated to nanosecond precision, before each
advance of 1/r); for every rate r > 0 and start t0 ≥ 0 the resulting sequence
is monotonically non-decreasing and every nanoseconds component lies in
[0, 1e9). -/
theorem c1_amended_monotone (rate t0 : ℚ) (hr : 0 < rate) (ht : 0 ≤ t0) (n : ℕ) :
    (∀ q ∈ stampSeq rate t0 n, 0 ≤ q.2 ∧ q.2 < 10 ^ 9) ∧
    List.Chain' (fun a b : ℤ × ℤ => a.1 * 10 ^ 9 + a.2 ≤ b.1 * 10 ^ 9 + b.2)
      (stampSeq rate t0 n) :=
  stampSeqAux_bounds_chain rate hr n _ (goodPair_split t0 ht)

/-- C1 witness: the amended statement instantiated at rate 2, start 3, 5 files. -/
theorem c1_amended_monotone_witness :
    (0 : ℚ) < 2 ∧ (0 : ℚ) ≤ 3 ∧
    ((∀ q ∈ stampSeq 2 3 5, 0 ≤ q.2 ∧ q.2 < 10 ^ 9) ∧
     List.Chain' (fun a b : ℤ × ℤ => a.1 * 10 ^ 9 + a.2 ≤ b.1 * 10 ^ 9 + b.2)
       (stampSeq 2 3 5)) :=
  ⟨by decide, by decide, c1_amended_monotone 2 3 (by decide) (by decide) 5⟩

/-! ## String primitives and the PurePosixPath model -/

/-- Model of Python `str.split(sep)` at character-list level: splitting the
empty string yields one empty part, separators are not merged. -/
def splitCh (sep : Char) : List Char → List (List Char)
  | [] => [[]]
  | c :: cs =>
    match splitCh sep cs with
    | [] => [[]]
    | h :: t => if c = sep then [] :: h :: t else (c :: h) :: t

/-- Join character-list parts with a separator character (inverse of `splitCh`). -/
def joinWith (sep : Char) : List (List Char) → List Char
  | [] => []
  | [a] => a
  | a :: b :: t => a ++ sep :: joinWith sep (b :: t)

theorem splitCh_ne_nil (sep : Char) (cs : List Char) : splitCh sep cs ≠ [] := by
  cases cs with
  | nil => simp [splitCh]
  | cons c cs =>
    simp only [splitCh]
    rcases h : splitCh sep cs with _ | ⟨a, t⟩
    · simp
    · by_cases hc : c = sep <;> simp [hc]

theorem splitCh_cons_sep (sep : Char) (cs : List Char) :
    splitCh sep (sep :: cs) = [] :: splitCh sep cs := by
  simp only [splitCh]
  rcases h : splitCh sep cs with _ | ⟨a, t⟩
  · exact absurd h (splitCh_ne_nil sep cs)
  · simp

theorem joinWith_splitCh (sep : Char) (cs : List Char) :
    joinWith sep (splitCh sep cs) = cs := by
  induction cs with
  | nil => simp [splitCh, joinWith]
  | cons c cs ih =>
    simp only [splitCh]
    rcases h : splitCh sep cs with _ | ⟨a, t⟩
    · exact absurd h (splitCh_ne_nil sep cs)
    · rw [h] at ih
      dsimp only
      by_cases hc : c = sep
      · subst hc
        simp only [if_pos rfl, joinWith]
        rw [← ih]
        rfl
      · rw [if_neg hc]
        cases t with
        | nil => simpa [joinWith] using congrArg (c :: ·) ih
        | cons b t2 =>
          simp only [joinWith] at ih ⊢
          rw [← ih]
          rfl

theorem mem_splitCh_not_sep (sep : Char) (cs : List Char) :
    ∀ p ∈ splitCh sep cs, sep ∉ p := by
  induction cs with
  | nil => intro p hp; simp [splitCh] at hp; simp [hp]
  | cons c cs ih =>
    intro p hp
    simp only [splitCh] at hp
    rcases h : splitCh sep cs with _ | ⟨a, t⟩
    · exact absurd h (splitCh_ne_nil sep cs)
    · rw [h] at hp
      dsimp only at hp
      by_cases hc : c = sep
      · rw [if_pos hc] at hp
        rcases List.mem_cons.1 hp with hp | hp
        · subst hp; simp
        · exact ih p (h ▸ hp)
      · rw [if_neg hc] at hp
        rcases List.mem_cons.1 hp with hp | hp
        · subst hp
          intro hmem
          rcases List.mem_cons.1 hmem with he | hmem2
          · exact hc he.symm
          · exact ih a (h ▸ List.mem_cons_self a t) hmem2
        · exact ih p (h ▸ List.mem_cons.2 (Or.inr hp))

theorem splitCh_of_not_mem (sep : Char) (cs : List Char) (h : sep ∉ cs) :
    splitCh sep cs = [cs] := by
  induction cs with
  | nil => simp [splitCh]
  | cons c cs ih =>
    have hc : c ≠ sep := fun he => h (he ▸ List.mem_cons_self c cs)
    have hcs : sep ∉ cs := fun hm => h (List.mem_cons.2 (Or.inr hm))
    simp only [splitCh, ih hcs]
    simp [fun he => hc he]

/-- String-level Python `str.split(sep)` (single-character separator). -/
def pySplit (s : String) (sep : Char) : List String :=
  (splitCh sep s.data).map String.mk

/-- String-level Python `str.strip(c)`: remove all leading and trailing
occurrences of the character `c`. -/
def pyStrip (c : Char) (s : String) : String :=
  String.mk (((s.data.dropWhile (fun a => a = c)).reverse.dropWhile (fun a => a = c)).reverse)

/-- A path component that `PurePosixPath` keeps: neither empty nor ".". -/
def isRealSegment (s : String) : Bool := s != "" && s != "."

/-- Number of leading '/' characters, which determines the POSIX root. -/
def leadSlashCount (cs : List Char) : ℕ := (cs.takeWhile (fun c => c = '/')).length

/-- Components `PurePosixPath` keeps from one string argument. -/
def pathComps (cs : List Char) : List (List Char) :=
  (splitCh '/' cs).filter (fun p => isRealSegment (String.mk p))

/-- Parse one `PurePosixPath` argument into (root, components): one leading
slash (or three and more) gives root "/", exactly two give the POSIX-reserved
root "//". -/
def pparse (cs : List Char) : Option (List Char) × List (List Char) :=
  (if leadSlashCount cs = 0 then none
   else if leadSlashCount cs = 2 then some ['/', '/'] else some ['/'],
   pathComps cs)

/-- Combining step of `PurePosixPath(a, b, ...)`: an absolute argument discards
everything accumulated before it. -/
def pjoinStep (acc : Option (List Char) × List (List Char)) (a : List Char) :
    Option (List Char) × List (List Char) :=
  match pparse a with
  | (some r, cs) => (some r, cs)
  | (none, cs) => (acc.1, acc.2 ++ cs)

/-- Model of `str(PurePosixPath(*args))` (character-list level). -/
def purePathCh (args : List (List Char)) : List Char :=
  match args.foldl pjoinStep (none, []) with
  | (none, []) => ['.']
  | (none, cs) => joinWith '/' cs
  | (some r, []) => r
  | (some r, cs) => r ++ joinWith '/' cs

/-- Model of `str(PurePosixPath(*args))`. -/
def purePathStr (args : List String) : String :=
  String.mk (purePathCh (args.map String.data))

/-- Embedding of `utils.get_frame_id_from_topic`. -/
def get_frame_id_from_topic (topic : String) : String :=
  let topic_parts := (pySplit (pyStrip '/' topic) '/').dropLast
  if topic_parts = [] then purePathStr (pySplit (pyStrip '/' topic) '/')
  else purePathStr topic_parts

/-! ### Relative-argument reduction of the PurePosixPath model -/

theorem mk_data (s : String) : String.mk s.data = s := by cases s; rfl

theorem pparse_of_not_slash (cs : List Char) (h : '/' ∉ cs) :
    pparse cs = (none, if isRealSegment (String.mk cs) then [cs] else []) := by
  have hlead : leadSlashCount cs = 0 := by
    cases cs with
    | nil => rfl
    | cons c cs =>
      have hc : ¬(c = '/') := fun he => h (he ▸ List.mem_cons_self c cs)
      simp [leadSlashCount, List.takeWhile, hc]
  unfold pparse pathComps
  rw [hlead, splitCh_of_not_mem '/' cs h]
  cases hrs : isRealSegment (String.mk cs) <;> simp [List.filter, hrs]

theorem foldl_pjoinStep_relative (args : List (List Char)) (h : ∀ a ∈ args, '/' ∉ a) :
    ∀ l : List (List Char),
      args.foldl pjoinStep (none, l) =
        (none, l ++ args.filter (fun a => isRealSegment (String.mk a))) := by
  induction args with
  | nil => intro l; simp
  | cons a rest ih =>
    intro l
    have ha : '/' ∉ a := h a (List.mem_cons_self a rest)
    have hrest : ∀ b ∈ rest, '/' ∉ b := fun b hb => h b (List.mem_cons.2 (Or.inr hb))
    have hstep : pjoinStep (none, l) a =
        (none, l ++ if isRealSegment (String.mk a) then [a] else []) := by
      unfold pjoinStep
      rw [pparse_of_not_slash a ha]
    rw [List.foldl_cons, hstep, ih hrest]
    by_cases hra : isRealSegment (String.mk a) <;> simp [hra, List.filter_cons]

theorem purePathCh_relative (args : List (List Char)) (h : ∀ a ∈ args, '/' ∉ a) :
    purePathCh args =
      (if args.filter (fun a => isRealSegment (String.mk a)) = [] then ['.']
       else joinWith '/' (args.filter (fun a => isRealSegment (String.mk a)))) := by
  unfold purePathCh
  rw [foldl_pjoinStep_relative args h []]
  cases hf : args.filter (fun a => isRealSegment (String.mk a)) with
  | nil => simp
  | cons b t => simp

/-- Join string segments with '/' between them. -/
def joinSlash : List String → String
  | [] => ""
  | [a] => a
  | a :: b :: t => a ++ "/" ++ joinSlash (b :: t)

/-- Normalisation stated by the amended claim C4: drop empty and "."
segments, join the rest with '/', and render "." when nothing is left. -/
def normalizeRelSegments (segs : List String) : String :=
  if segs.filter isRealSegment = [] then "."
  else joinSlash (segs.filter isRealSegment)

theorem joinSlash_data : ∀ l : List String, (joinSlash l).data = joinWith '/' (l.map String.data)
  | [] => rfl
  | [a] => rfl
  | a :: b :: t => by
    show (a ++ "/" ++ joinSlash (b :: t)).data = a.data ++ '/' :: joinWith '/' ((b :: t).map String.data)
    rw [String.data_append, String.data_append, joinSlash_data (b :: t)]
    rw [List.append_assoc]
    rfl

theorem map_data_filter (segs : List String) :
    (segs.map String.data).filter (fun p => isRealSegment (String.mk p)) =
      (segs.filter isRealSegment).map String.data := by
  induction segs with
  | nil => rfl
  | cons s rest ih =>
    simp only [List.map_cons, List.filter_cons, mk_data]
    by_cases hs : isRealSegment s <;> simp [hs, ih]

theorem purePathStr_of_segments (segs : List String) (h : ∀ s ∈ segs, '/' ∉ s.data) :
    purePathStr segs = normalizeRelSegments segs := by
  unfold purePathStr normalizeRelSegments
  rw [purePathCh_relative _ (by intro a ha
                                obtain ⟨s, hs, rfl⟩ := List.mem_map.1 ha
                                exact h s hs)]
  rw [map_data_filter]
  cases hf : segs.filter isRealSegment with
  | nil => simp [hf]
  | cons b t =>
    have hne : (b :: t).map String.data ≠ [] := by simp
    rw [if_neg hne, if_neg (by simp [hf])]
    rw [← joinSlash_data (b :: t), mk_data]

theorem mem_pySplit_no_slash (s : String) : ∀ p ∈ pySplit s '/', '/' ∉ p.data := by
  intro p hp
  obtain ⟨q, hq, rfl⟩ := List.mem_map.1 hp
  show '/' ∉ q
  exact mem_splitCh_not_sep '/' s.data q hq

/-! ### Claim C4 -/

/-- Definition transcribing claim C4's words: the frame identifier equals the
topic with leading/trailing '/' stripped and the last '/'-separated segment
dropped (remaining segments joined back with '/'); if no parent segments
remain, it equals the stripped topic itself. -/
def frameIdSpec (topic : String) : String :=
  let stripped := pyStrip '/' topic
  let parents := (pySplit stripped '/').dropLast
  if parents = [] then stripped else joinSlash parents

/-- Definition transcribing the amended claim C4: as `frameIdSpec`, except
that the remaining segments are joined as a normalised relative POSIX path
(empty and "." segments collapsed, "." when nothing remains), and the
no-parent case applies the same normalisation to the stripped topic. -/
def frameIdSpecAmended (topic : String) : String :=
  let stripped := pyStrip '/' topic
  let segs := pySplit stripped '/'
  let parents := segs.dropLast
  if parents = [] then normalizeRelSegments segs else normalizeRelSegments parents

/-- C4 counterexample: for the topic "/" the stripped topic is empty and no
parent segments remain, so the claim says the frame identifier is ""; the
code returns str(PurePath("")) which is ".". -/
theorem c4_counterexample :
    get_frame_id_from_topic "/" = "." ∧ frameIdSpec "/" = "" ∧
    get_frame_id_from_topic "/" ≠ frameIdSpec "/" := by decide

/-- C4 (amended): for every topic string the derived frame identifier is the
stripped topic's '/'-separated segments without the last one, joined as a
normalised relative POSIX path (empty and "." segments collapsed, "." when
nothing remains); when no parent segments remain the same normalisation is
applied to all segments of the stripped topic.  In particular
frame_id("/cam/front") = "cam" and frame_id("front") = "front". -/
theorem c4_frame_id_amended :
    (∀ topic : String, get_frame_id_from_topic topic = frameIdSpecAmended topic) ∧
    get_frame_id_from_topic "/cam/front" = "cam" ∧
    get_frame_id_from_topic "front" = "front" := by
  refine ⟨?_, by decide, by decide⟩
  intro topic
  unfold get_frame_id_from_topic frameIdSpecAmended
  by_cases hp : (pySplit (pyStrip '/' topic) '/').dropLast = []
  · simp only [hp, if_pos rfl]
    exact purePathStr_of_segments _ (mem_pySplit_no_slash _)
  · simp only [hp, if_neg hp]
    exact purePathStr_of_segments _
      (fun s hs => mem_pySplit_no_slash _ s (List.dropLast_subset _ hs))

/-! ## Channel registration (Img2BagConverter._register_topics / convert) -/

/-- Model of Python `str.lstrip('/')`. -/
def lstrip_slash (s : String) : String := String.mk (s.data.dropWhile (fun a => a = '/'))

/-- Metadata of one created channel, as in `rosbag2_py.TopicMetadata`. -/
structure TopicMeta where
  name : String
  type : String
  deriving DecidableEq, Repr

/-- Embedding of `camera_info_topic_name = str(PurePath(f'/{frame_id}', self._camera_info_topic))`. -/
def camera_info_topic_name (camera_info_topic frame_id : String) : String :=
  purePathStr ["/" ++ frame_id, camera_info_topic]

/-- Embedding of `image_topic_name = f'/{img_topic.lstrip("/")}'`. -/
def image_topic_name (img_topic : String) : String := "/" ++ lstrip_slash img_topic

/-- Embedding of `Img2BagConverter._register_topics`: the two channels created
for one (frame id, image topic) pair, in creation order. -/
def register_topics (camera_info_topic frame_id img_topic : String) : List TopicMeta :=
  [⟨image_topic_name img_topic, "sensor_msgs/msg/Image"⟩,
   ⟨camera_info_topic_name camera_info_topic frame_id, "sensor_msgs/msg/CameraInfo"⟩]

/-- Embedding of the channel creations performed by `Img2BagConverter.convert`:
one `_register_topics` call per configured (directory, topic) pair, in order. -/
def convertChannels (camera_info_topic : String) (pairs : List (String × String)) :
    List TopicMeta :=
  pairs.foldr
    (fun p acc => register_topics camera_info_topic (get_frame_id_from_topic p.2) p.2 ++ acc) []

/-- A string that is already a normalised relative POSIX path: splitting on
'/' yields only segments that are neither empty nor ".". -/
def slashNormal (s : String) : Bool := (pySplit s '/').all isRealSegment

/-- Character-level counterpart of `slashNormal`. -/
def normCh (cs : List Char) : Bool :=
  (splitCh '/' cs).all (fun p => isRealSegment (String.mk p))

theorem slashNormal_normCh (s : String) (h : slashNormal s = true) : normCh s.data = true := by
  unfold slashNormal pySplit at h
  unfold normCh
  simpa [List.all_map, Function.comp] using h

theorem normCh_lead (cs : List Char) (h : normCh cs = true) : leadSlashCount cs = 0 := by
  cases cs with
  | nil => rfl
  | cons c rest =>
    by_cases hc : c = '/'
    · subst hc
      rw [normCh, splitCh_cons_sep] at h
      simp only [List.all_cons, Bool.and_eq_true] at h
      exact absurd h.1 (by decide)
    · simp [leadSlashCount, List.takeWhile, hc]

theorem normCh_filter (cs : List Char) (h : normCh cs = true) :
    pathComps cs = splitCh '/' cs :=
  List.filter_eq_self.2 (List.all_eq_true.1 h)

theorem pparse_norm (cs : List Char) (h : normCh cs = true) :
    pparse cs = (none, splitCh '/' cs) := by
  unfold pparse
  rw [normCh_lead cs h, normCh_filter cs h]
  simp

theorem pparse_abs_norm (cs : List Char) (h : normCh cs = true) :
    pparse ('/' :: cs) = (some ['/'], splitCh '/' cs) := by
  have hlead : leadSlashCount ('/' :: cs) = 1 := by
    have h0 : leadSlashCount cs = 0 := normCh_lead cs h
    unfold leadSlashCount at h0 ⊢
    rw [List.takeWhile_cons]
    simp [h0]
  unfold pparse
  rw [hlead]
  have hcomps : pathComps ('/' :: cs) = splitCh '/' cs := by
    unfold pathComps
    rw [splitCh_cons_sep, List.filter_cons]
    have : isRealSegment (String.mk ([] : List Char)) = false := by decide
    rw [this]
    simp only [Bool.false_eq_true, if_false]
    exact normCh_filter cs h
  rw [hcomps]
  simp

theorem joinWith_append (sep : Char) (A B : List (List Char)) (hA : A ≠ []) (hB : B ≠ []) :
    joinWith sep (A ++ B) = joinWith sep A ++ sep :: joinWith sep B := by
  induction A with
  | nil => exact absurd rfl hA
  | cons a A ih =>
    cases A with
    | nil =>
      cases B with
      | nil => exact absurd rfl hB
      | cons b B => rfl
    | cons a2 A2 =>
      have ih2 := ih (by simp)
      show joinWith sep (a :: (a2 :: A2 ++ B)) = _
      have h1 : joinWith sep (a :: (a2 :: A2 ++ B)) =
          a ++ sep :: joinWith sep (a2 :: A2 ++ B) := by
        cases h : a2 :: A2 ++ B with
        | nil => simp at h
        | cons x t => rfl
      rw [h1, ih2]
      show _ = (a ++ sep :: joinWith sep (a2 :: A2)) ++ sep :: joinWith sep B
      simp [List.append_assoc]

theorem purePathCh_abs_pair (f c : List Char) (hf : normCh f = true) (hc : normCh c = true) :
    purePathCh ['/' :: f, c] = '/' :: (f ++ '/' :: c) := by
  unfold purePathCh
  have s1 : pjoinStep (none, []) ('/' :: f) = (some ['/'], splitCh '/' f) := by
    unfold pjoinStep; rw [pparse_abs_norm f hf]
  have s2 : pjoinStep (some ['/'], splitCh '/' f) c =
      (some ['/'], splitCh '/' f ++ splitCh '/' c) := by
    unfold pjoinStep; rw [pparse_norm c hc]
  simp only [List.foldl, s1, s2]
  cases hcs : splitCh '/' f ++ splitCh '/' c with
  | nil => exact absurd (List.append_eq_nil.1 hcs).1 (splitCh_ne_nil '/' f)
  | cons x t =>
    rw [← hcs]
    have hjoin : joinWith '/' (splitCh '/' f ++ splitCh '/' c) = f ++ '/' :: c := by
      rw [joinWith_append '/' _ _ (splitCh_ne_nil '/' f) (splitCh_ne_nil '/' c),
        joinWith_splitCh, joinWith_splitCh]
    rw [hcs]
    dsimp only
    rw [← hcs, hjoin]
    rfl

theorem pjoinStep_abs (c : List Char) (h : leadSlashCount c ≠ 0)
    (acc : Option (List Char) × List (List Char)) : pjoinStep acc c = pparse c := by
  unfold pjoinStep pparse
  rw [if_neg h]
  by_cases h2 : leadSlashCount c = 2 <;> simp [h2]

theorem purePathCh_pair_abs_snd (a c : List Char) (h : leadSlashCount c ≠ 0) :
    purePathCh [a, c] = purePathCh [c] := by
  unfold purePathCh
  simp only [List.foldl]
  rw [pjoinStep_abs c h (pjoinStep (none, []) a), pjoinStep_abs c h (none, [])]

theorem purePathCh_abs_single (rel : List Char) (h : normCh rel = true) :
    purePathCh ['/' :: rel] = '/' :: rel := by
  unfold purePathCh
  simp only [List.foldl]
  have s1 : pjoinStep (none, []) ('/' :: rel) = (some ['/'], splitCh '/' rel) := by
    unfold pjoinStep; rw [pparse_abs_norm rel h]
  rw [s1]
  cases hcs : splitCh '/' rel with
  | nil => exact absurd hcs (splitCh_ne_nil '/' rel)
  | cons x t =>
    rw [← hcs]
    rw [hcs]
    dsimp only
    rw [← hcs, joinWith_splitCh]
    rfl

theorem data_slash_append (f : String) : ("/" ++ f).data = '/' :: f.data := by
  rw [String.data_append]
  rfl

theorem camera_info_name_eq (c f : String) (hf : slashNormal f = true)
    (hc : slashNormal c = true) :
    camera_info_topic_name c f = "/" ++ f ++ "/" ++ c := by
  unfold camera_info_topic_name purePathStr
  have hmap : ([("/" ++ f), c].map String.data) = ['/' :: f.data, c.data] := by
    simp [data_slash_append]
  rw [hmap, purePathCh_abs_pair f.data c.data (slashNormal_normCh f hf) (slashNormal_normCh c hc)]
  rw [← mk_data ("/" ++ f ++ "/" ++ c)]
  congr 1
  rw [String.data_append, String.data_append, data_slash_append]
  simp [List.append_assoc]

/-! ### Claim C8 -/

/-- C8 counterexample: for topics "/cam/front" and "/x/y" with camera info
topic "camera_info", four channels are created, but the calibration channel
name is "/cam/camera_info" with a leading '/', not the claimed
frame_id(t1) + "/" + camera_info_topic = "cam/camera_info". -/
theorem c8_counterexample :
    convertChannels "camera_info" [("d1", "/cam/front"), ("d2", "/x/y")] =
      [⟨"/cam/front", "sensor_msgs/msg/Image"⟩,
       ⟨"/cam/camera_info", "sensor_msgs/msg/CameraInfo"⟩,
       ⟨"/x/y", "sensor_msgs/msg/Image"⟩,
       ⟨"/x/camera_info", "sensor_msgs/msg/CameraInfo"⟩] ∧
    get_frame_id_from_topic "/cam/front" ++ "/" ++ "camera_info" = "cam/camera_info" ∧
    camera_info_topic_name "camera_info" (get_frame_id_from_topic "/cam/front") ≠
      get_frame_id_from_topic "/cam/front" ++ "/" ++ "camera_info" := by decide

/-- C8 (amended): for every configuration with directories [d1, d2] and topics
[t1, t2], conversion creates exactly four channels, one image and one
calibration channel per topic, and (for a relative, slash-normal
camera_info_topic and slash-normal frame ids) the calibration channel name
for topic ti equals "/" + frame_id(ti) + "/" + camera_info_topic. -/
theorem c8_channels_amended (d1 d2 t1 t2 c : String)
    (h1 : slashNormal (get_frame_id_from_topic t1) = true)
    (h2 : slashNormal (get_frame_id_from_topic t2) = true)
    (hc : slashNormal c = true) :
    convertChannels c [(d1, t1), (d2, t2)] =
      [⟨image_topic_name t1, "sensor_msgs/msg/Image"⟩,
       ⟨"/" ++ get_frame_id_from_topic t1 ++ "/" ++ c, "sensor_msgs/msg/CameraInfo"⟩,
       ⟨image_topic_name t2, "sensor_msgs/msg/Image"⟩,
       ⟨"/" ++ get_frame_id_from_topic t2 ++ "/" ++ c, "sensor_msgs/msg/CameraInfo"⟩] ∧
    (convertChannels c [(d1, t1), (d2, t2)]).length = 4 := by
  have e1 := camera_info_name_eq c (get_frame_id_from_topic t1) h1 hc
  have e2 := camera_info_name_eq c (get_frame_id_from_topic t2) h2 hc
  constructor
  · unfold convertChannels register_topics
    simp [e1, e2]
  · unfold convertChannels register_topics
    simp

/-- C8 witness: the amended statement instantiated at directories
["dir1", "dir2"], topics ["/cam/front", "/x/y"], camera info "camera_info". -/
theorem c8_channels_amended_witness :
    slashNormal (get_frame_id_from_topic "/cam/front") = true ∧
    slashNormal (get_frame_id_from_topic "/x/y") = true ∧
    slashNormal "camera_info" = true ∧
    (convertChannels "camera_info" [("dir1", "/cam/front"), ("dir2", "/x/y")] =
      [⟨image_topic_name "/cam/front", "sensor_msgs/msg/Image"⟩,
       ⟨"/" ++ get_frame_id_from_topic "/cam/front" ++ "/" ++ "camera_info",
         "sensor_msgs/msg/CameraInfo"⟩,
       ⟨image_topic_name "/x/y", "sensor_msgs/msg/Image"⟩,
       ⟨"/" ++ get_frame_id_from_topic "/x/y" ++ "/" ++ "camera_info",
         "sensor_msgs/msg/CameraInfo"⟩] ∧
     (convertChannels "camera_info" [("dir1", "/cam/front"), ("dir2", "/x/y")]).length = 4) :=
  ⟨by decide, by decide, by decide,
   c8_channels_amended "dir1" "dir2" "/cam/front" "/x/y" "camera_info"
     (by decide) (by decide) (by decide)⟩

/-! ### Claim C10 -/

/-- Model of the CLI restriction `^[A-Za-z/_]+$` on the camera info topic
(`CameraInfoTopicType` in src/img2bag/main). -/
def cameraInfoTopicOk (s : String) : Bool :=
  s != "" && s.data.all (fun ch =>
    decide ('A' ≤ ch ∧ ch ≤ 'Z') || decide ('a' ≤ ch ∧ ch ≤ 'z') || ch == '/' || ch == '_')

/-- Whether a string begins with '/'. -/
def startsWithSlash (s : String) : Bool := decide (leadSlashCount s.data ≠ 0)

/-- C10 counterexample: the CLI pattern accepts "/a//b", which begins with
'/', but the registered calibration channel name is the normalised "/a/b",
not "/a//b" itself: the claim's "registered under the name c alone" fails for
strings with redundant slashes. -/
theorem c10_counterexample :
    cameraInfoTopicOk "/a//b" = true ∧ startsWithSlash "/a//b" = true ∧
    camera_info_topic_name "/a//b" "cam" = "/a/b" ∧
    camera_info_topic_name "/a//b" "cam" ≠ "/a//b" := by decide

/-- C10 (amended): if the configured camera info topic c begins with '/', the
'/{frame_id}' prefix is discarded entirely and the calibration channel is
registered under str(PurePath(c)) — which equals c itself whenever c is "/"
followed by a slash-normal remainder — while for a slash-normal relative c
(and slash-normal frame id f) the name is '/{f}/{c}'. -/
theorem c10_camera_info_absolute_amended :
    (∀ f c : String, startsWithSlash c = true →
        camera_info_topic_name c f = purePathStr [c]) ∧
    (∀ f rel : String, slashNormal rel = true →
        camera_info_topic_name ("/" ++ rel) f = "/" ++ rel) ∧
    (∀ f c : String, slashNormal f = true → slashNormal c = true →
        camera_info_topic_name c f = "/" ++ f ++ "/" ++ c) := by
  refine ⟨?_, ?_, ?_⟩
  · intro f c hcs
    have habs : leadSlashCount c.data ≠ 0 := of_decide_eq_true hcs
    unfold camera_info_topic_name purePathStr
    congr 1
    simp only [List.map_cons, List.map_nil]
    exact purePathCh_pair_abs_snd ("/" ++ f).data c.data habs
  · intro f rel hrel
    unfold camera_info_topic_name purePathStr
    have hmap : ([("/" ++ f), "/" ++ rel].map String.data) =
        [("/" ++ f).data, '/' :: rel.data] := by
      simp [data_slash_append]
    rw [hmap]
    have habs : leadSlashCount ('/' :: rel.data) ≠ 0 := by
      unfold leadSlashCount
      rw [List.takeWhile_cons]
      simp
    rw [purePathCh_pair_abs_snd _ _ habs,
      purePathCh_abs_single rel.data (slashNormal_normCh rel hrel)]
    rw [← mk_data ("/" ++ rel), data_slash_append]
  · intro f c hf hc
    exact camera_info_name_eq c f hf hc

/-- C10 witness: the amended statement instantiated at frame id "cam" with
camera info topics "/camera_info" (absolute) and "camera_info" (relative). -/
theorem c10_camera_info_absolute_amended_witness :
    slashNormal "camera_info" = true ∧
    camera_info_topic_name ("/" ++ "camera_info") "cam" = "/" ++ "camera_info" ∧
    camera_info_topic_name "camera_info" "cam" = "/" ++ "cam" ++ "/" ++ "camera_info" :=
  ⟨by decide,
   c10_camera_info_absolute_amended.2.1 "cam" "camera_info" (by decide),
   c10_camera_info_absolute_amended.2.2 "cam" "camera_info" (by decide) (by decide)⟩

/-! ## Image records and calibration synthesis -/

/-- Embedding of `utils.resize_image`'s dimension computation: if the target
width is ≤ 0 it is recomputed as `int(W * h / H)`, else if the target height
is ≤ 0 it is recomputed as `int(H * w / W)`, else the target is used as is. -/
def resizeDims (W H : ℤ) (size : ℤ × ℤ) : ℤ × ℤ :=
  if size.1 ≤ 0 then (pyInt ((W : ℚ) * (size.2 : ℚ) / (H : ℚ)), size.2)
  else if size.2 ≤ 0 then (size.1, pyInt ((H : ℚ) * (size.1 : ℚ) / (W : ℚ)))
  else size

/-- Decoded image as delivered by PIL: pixel mode, dimensions and raw bytes
(the byte content is carried opaquely; no claim depends on it). -/
structure PILImageData where
  mode : String
  width : ℤ
  height : ℤ
  raw : List ℕ
  deriving DecidableEq, Repr

/-- Embedding of `utils.resize_image`: the result has the computed dimensions
and (a PIL property) the same pixel mode; resampled byte content is not
modelled. -/
def resize_image (img : PILImageData) (size : ℤ × ℤ) : PILImageData :=
  { img with
    width := (resizeDims img.width img.height size).1,
    height := (resizeDims img.width img.height size).2 }

/-- Embedding of `utils.get_flatten_calibration_matrices`: distortion,
flattened intrinsic, rotation and projection matrices for an image of size
`(width, height)`; `aspect_ratio = imgsz[1] / imgsz[0]`, `K[1,1] =
imgsz[1] / aspect_ratio`, and `P = column_stack((K, zeros(3)))`. -/
def get_flatten_calibration_matrices (imgsz : ℤ × ℤ) :
    List ℚ × List ℚ × List ℚ × List ℚ :=
  let w : ℚ := (imgsz.1 : ℚ)
  let h : ℚ := (imgsz.2 : ℚ)
  let aspect_ratio : ℚ := h / w
  ([0, 0, 0, 0, 0],
   [w, 0, w / 2, 0, h / aspect_ratio, h / 2, 0, 0, 1],
   [1, 0, 0, 0, 1, 0, 0, 0, 1],
   [w, 0, w / 2, 0, 0, h / aspect_ratio, h / 2, 0, 0, 0, 1, 0])

/-! ### Claim C3 -/

/-- C3 counterexample: at post-resize size 1920x1080 the code's intrinsic
matrix has focal_y = h / aspect_ratio = 1080 / (1080/1920) = 1920, while the
claimed formula focal_y = w / aspect_ratio = 1920 / (1080/1920) = 10240/3 is
a different number, so the claimed intrinsic matrix is not the produced one. -/
theorem c3_counterexample :
    (get_flatten_calibration_matrices (1920, 1080)).2.1 =
      [1920, 0, 960, 0, 1920, 540, 0, 0, 1] ∧
    (1920 : ℚ) / ((1080 : ℚ) / (1920 : ℚ)) ≠ 1920 ∧
    (get_flatten_calibration_matrices (1920, 1080)).2.1 ≠
      [1920, 0, 1920 / 2, 0, (1920 : ℚ) / ((1080 : ℚ) / (1920 : ℚ)), 1080 / 2, 0, 0, 1] := by
  refine ⟨?_, by norm_num, ?_⟩
  · norm_num [get_flatten_calibration_matrices]
  · norm_num [get_flatten_calibration_matrices]

/-- C3 (amended): for every image of post-resize width w > 0 and height h > 0
the synthesised record has distortion = five zeros, rotation = identity,
projection = the intrinsic matrix with an appended zero translation column,
and an intrinsic matrix with focal_x = w, focal_y = h / aspect_ratio (which
equals w, aspect_ratio being h/w) and principal point (w/2, h/2). -/
theorem c3_calibration_amended (w h : ℤ) (hw : 0 < w) (hh : 0 < h) :
    get_flatten_calibration_matrices (w, h) =
      ([0, 0, 0, 0, 0],
       [(w : ℚ), 0, (w : ℚ) / 2, 0, (w : ℚ), (h : ℚ) / 2, 0, 0, 1],
       [1, 0, 0, 0, 1, 0, 0, 0, 1],
       [(w : ℚ), 0, (w : ℚ) / 2, 0, 0, (w : ℚ), (h : ℚ) / 2, 0, 0, 0, 1, 0]) := by
  have hw' : ((w : ℚ)) ≠ 0 := Int.cast_ne_zero.2 (ne_of_gt hw)
  have hh' : ((h : ℚ)) ≠ 0 := Int.cast_ne_zero.2 (ne_of_gt hh)
  have key : (h : ℚ) / ((h : ℚ) / (w : ℚ)) = (w : ℚ) := by
    field_simp
  simp only [get_flatten_calibration_matrices, key]

/-- C3 witness: the amended statement instantiated at 1920x1080. -/
theorem c3_calibration_amended_witness :
    (0 : ℤ) < 1920 ∧ (0 : ℤ) < 1080 ∧
    get_flatten_calibration_matrices (1920, 1080) =
      ([0, 0, 0, 0, 0],
       [((1920 : ℤ) : ℚ), 0, ((1920 : ℤ) : ℚ) / 2, 0, ((1920 : ℤ) : ℚ),
        ((1080 : ℤ) : ℚ) / 2, 0, 0, 1],
       [1, 0, 0, 0, 1, 0, 0, 0, 1],
       [((1920 : ℤ) : ℚ), 0, ((1920 : ℤ) : ℚ) / 2, 0, 0, ((1920 : ℤ) : ℚ),
        ((1080 : ℤ) : ℚ) / 2, 0, 0, 0, 1, 0]) :=
  ⟨by decide, by decide, c3_calibration_amended 1920 1080 (by decide) (by decide)⟩

/-! ## Message synthesis and the per-file loop
(Img2BagConverter._create_image_camera_info_messages / _convert_image_to_topic) -/

/-- Pixel-mode table of `_create_image_camera_info_messages`:
`{'RGB': 'rgb8', 'RGBA': 'rgba8', 'L': 'mono8'}`. -/
def image_encoding_map (mode : String) : Option String :=
  if mode = "RGB" then some "rgb8"
  else if mode = "RGBA" then some "rgba8"
  else if mode = "L" then some "mono8"
  else none

/-- Model of `len(img.getbands())`, from PIL's documented band counts per
pixel mode (only the supported modes are ever reached by the code). -/
def numBands (mode : String) : ℤ :=
  if mode = "RGB" then 3
  else if mode = "RGBA" then 4
  else if mode = "L" then 1
  else if mode = "LA" then 2
  else if mode = "CMYK" then 4
  else if mode = "YCbCr" then 3
  else 1

/-- Header of a written record: `std_msgs.msg.Header` with its stamp. -/
structure MsgHeader where
  sec : ℤ
  nanosec : ℤ
  frame_id : String
  deriving DecidableEq, Repr

/-- The `sensor_msgs.msg.Image` record as filled in by the code. -/
structure ImageMsg where
  header : MsgHeader
  height : ℤ
  width : ℤ
  encoding : String
  is_bigendian : Bool
  step : ℤ
  data : List ℕ
  deriving DecidableEq, Repr

/-- The `sensor_msgs.msg.CameraInfo` record as filled in by the code. -/
structure CameraInfoMsg where
  header : MsgHeader
  height : ℤ
  width : ℤ
  distortion_model : String
  d : List ℚ
  k : List ℚ
  r : List ℚ
  p : List ℚ
  deriving DecidableEq, Repr

/-- Outcome of opening and decoding one enumerated file: a decoded PIL image,
or a read/decode failure (`OSError` / `SyntaxError`, both caught). -/
inductive FileOutcome where
  | decoded (img : PILImageData)
  | readError
  deriving DecidableEq, Repr

/-- Embedding of `_create_image_camera_info_messages`: optional resize, then
the pixel-mode check (`UserWarning` for unsupported modes, modelled as
`none`), then the two records. -/
def create_image_camera_info_messages (imgsz : Option (ℤ × ℤ)) (file : FileOutcome)
    (header : MsgHeader) : Option (ImageMsg × CameraInfoMsg) :=
  match file with
  | FileOutcome.readError => none
  | FileOutcome.decoded img_org =>
    let img := match imgsz with
      | some s => resize_image img_org s
      | none => img_org
    if (image_encoding_map img.mode).isSome then
      some
        ({ header := header, height := img.height, width := img.width,
           encoding := (image_encoding_map img.mode).getD "rgb8",
           is_bigendian := false,
           step := img.width * numBands img.mode,
           data := img.raw },
         { header := header, height := img.height, width := img.width,
           distortion_model := "plumb_bob",
           d := (get_flatten_calibration_matrices (img.width, img.height)).1,
           k := (get_flatten_calibration_matrices (img.width, img.height)).2.1,
           r := (get_flatten_calibration_matrices (img.width, img.height)).2.2.1,
           p := (get_flatten_calibration_matrices (img.width, img.height)).2.2.2 })
    else none

/-- One record as handed to `rosbag_writer.write`: channel name, message,
and the integer timestamp `int(sec * 1e9 + nsec)`. -/
inductive BagMessage where
  | image (m : ImageMsg)
  | cameraInfo (m : CameraInfoMsg)
  deriving DecidableEq, Repr

structure WriteRec where
  topic : String
  message : BagMessage
  stamp : ℤ
  deriving DecidableEq, Repr

/-- Embedding of the per-file loop of `_convert_image_to_topic`: build the
header from the cursor, try to create the messages, on failure warn and
continue without advancing the cursor, on success write both records at
`int(sec * 1e9 + nsec)` and advance the cursor. -/
def convert_image_to_topic_loop (rate : ℚ) (imgsz : Option (ℤ × ℤ)) (frame_id : String)
    (img_tn ci_tn : String) : ℤ × ℤ → List FileOutcome → List WriteRec
  | _, [] => []
  | p, file :: rest =>
    match create_image_camera_info_messages imgsz file ⟨p.1, p.2, frame_id⟩ with
    | none => convert_image_to_topic_loop rate imgsz frame_id img_tn ci_tn p rest
    | some msgs =>
      ⟨img_tn, BagMessage.image msgs.1, p.1 * 10 ^ 9 + p.2⟩ ::
      ⟨ci_tn, BagMessage.cameraInfo msgs.2, p.1 * 10 ^ 9 + p.2⟩ ::
      convert_image_to_topic_loop rate imgsz frame_id img_tn ci_tn (seqNext rate p) rest

theorem loop_skip_of_none (rate : ℚ) (imgsz : Option (ℤ × ℤ)) (fid itn citn : String)
    (p : ℤ × ℤ) (file : FileOutcome) (rest : List FileOutcome)
    (h : create_image_camera_info_messages imgsz file ⟨p.1, p.2, fid⟩ = none) :
    convert_image_to_topic_loop rate imgsz fid itn citn p (file :: rest) =
    convert_image_to_topic_loop rate imgsz fid itn citn p rest := by
  simp only [convert_image_to_topic_loop, h]

/-! ### Claim C2 -/

/-- C2: when message creation for a file fails with a recoverable error (a
read/decode failure or an unsupported pixel mode), the cursor is left
unchanged, nothing is written for that file, processing continues with the
next file, and so the next successful file receives exactly the timestamp the
skipped file would have received. -/
theorem c2_skip_preserves_cursor (rate : ℚ) (imgsz : Option (ℤ × ℤ))
    (fid itn citn : String) (p : ℤ × ℤ) (file : FileOutcome) (rest : List FileOutcome)
    (h : create_image_camera_info_messages imgsz file ⟨p.1, p.2, fid⟩ = none) :
    convert_image_to_topic_loop rate imgsz fid itn citn p (file :: rest) =
    convert_image_to_topic_loop rate imgsz fid itn citn p rest :=
  loop_skip_of_none rate imgsz fid itn citn p file rest h

/-- C2 witness: a corrupt file before a good RGB file; skipping it leaves the
written records identical to processing without the corrupt file. -/
theorem c2_skip_preserves_cursor_witness :
    create_image_camera_info_messages none FileOutcome.readError
      ⟨((5, 0) : ℤ × ℤ).1, ((5, 0) : ℤ × ℤ).2, "cam"⟩ = none ∧
    convert_image_to_topic_loop 1 none "cam" "/t" "/cam/camera_info" (5, 0)
        (FileOutcome.readError :: [FileOutcome.decoded ⟨"RGB", 4, 3, []⟩]) =
      convert_image_to_topic_loop 1 none "cam" "/t" "/cam/camera_info" (5, 0)
        [FileOutcome.decoded ⟨"RGB", 4, 3, []⟩] :=
  ⟨rfl, c2_skip_preserves_cursor 1 none "cam" "/t" "/cam/camera_info" (5, 0)
    FileOutcome.readError [FileOutcome.decoded ⟨"RGB", 4, 3, []⟩] rfl⟩

/-! ### Claim C7 -/

theorem createMsgs_decoded_fields (imgsz : Option (ℤ × ℤ)) (img : PILImageData)
    (hdr : MsgHeader) (hsup : (image_encoding_map img.mode).isSome = true) :
    ∃ m ci,
      create_image_camera_info_messages imgsz (FileOutcome.decoded img) hdr = some (m, ci) ∧
      m.encoding = (image_encoding_map img.mode).getD "rgb8" ∧
      m.is_bigendian = false ∧
      m.step = m.width * numBands img.mode := by
  cases imgsz with
  | none =>
    unfold create_image_camera_info_messages
    simp only [hsup, if_true]
    exact ⟨_, _, rfl, rfl, rfl, rfl⟩
  | some s =>
    unfold create_image_camera_info_messages
    have hm : (resize_image img s).mode = img.mode := rfl
    simp only [hm, hsup, if_true]
    exact ⟨_, _, rfl, rfl, rfl, rfl⟩

theorem createMsgs_decoded_none (imgsz : Option (ℤ × ℤ)) (img : PILImageData)
    (hdr : MsgHeader) (hsup : (image_encoding_map img.mode).isSome = false) :
    create_image_camera_info_messages imgsz (FileOutcome.decoded img) hdr = none := by
  cases imgsz with
  | none =>
    unfold create_image_camera_info_messages
    simp [hsup]
  | some s =>
    unfold create_image_camera_info_messages
    have hm : (resize_image img s).mode = img.mode := rfl
    simp [hm, hsup]

/-- C7: the pixel-mode mapping is the closed enumeration RGB to "rgb8", RGBA
to "rgba8", L to "mono8"; every produced image record has is_bigendian =
false and step = width times bytes-per-pixel (3, 4 and 1 respectively); any
other mode yields no record and the loop skips the file and continues. -/
theorem c7_pixel_modes (imgsz : Option (ℤ × ℤ)) (img : PILImageData) (hdr : MsgHeader) :
    (img.mode = "RGB" → ∃ m ci,
        create_image_camera_info_messages imgsz (FileOutcome.decoded img) hdr = some (m, ci) ∧
        m.encoding = "rgb8" ∧ m.is_bigendian = false ∧ m.step = m.width * 3) ∧
    (img.mode = "RGBA" → ∃ m ci,
        create_image_camera_info_messages imgsz (FileOutcome.decoded img) hdr = some (m, ci) ∧
        m.encoding = "rgba8" ∧ m.is_bigendian = false ∧ m.step = m.width * 4) ∧
    (img.mode = "L" → ∃ m ci,
        create_image_camera_info_messages imgsz (FileOutcome.decoded img) hdr = some (m, ci) ∧
        m.encoding = "mono8" ∧ m.is_bigendian = false ∧ m.step = m.width * 1) ∧
    (img.mode ≠ "RGB" → img.mode ≠ "RGBA" → img.mode ≠ "L" →
        create_image_camera_info_messages imgsz (FileOutcome.decoded img) hdr = none ∧
        ∀ (rate : ℚ) (fid itn citn : String) (p : ℤ × ℤ) (rest : List FileOutcome),
          convert_image_to_topic_loop rate imgsz fid itn citn p
              (FileOutcome.decoded img :: rest) =
            convert_image_to_topic_loop rate imgsz fid itn citn p rest) := by
  refine ⟨?_, ?_, ?_, ?_⟩
  · intro h
    obtain ⟨m, ci, hm, he, hb, hs⟩ := createMsgs_decoded_fields imgsz img hdr (by rw [h]; rfl)
    refine ⟨m, ci, hm, ?_, hb, ?_⟩
    · rw [he, h]; rfl
    · rw [hs, h]; rfl
  · intro h
    obtain ⟨m, ci, hm, he, hb, hs⟩ := createMsgs_decoded_fields imgsz img hdr (by rw [h]; rfl)
    refine ⟨m, ci, hm, ?_, hb, ?_⟩
    · rw [he, h]; rfl
    · rw [hs, h]; rfl
  · intro h
    obtain ⟨m, ci, hm, he, hb, hs⟩ := createMsgs_decoded_fields imgsz img hdr (by rw [h]; rfl)
    refine ⟨m, ci, hm, ?_, hb, ?_⟩
    · rw [he, h]; rfl
    · rw [hs, h]; rfl
  · intro h1 h2 h3
    have hsup : (image_encoding_map img.mode).isSome = false := by
      unfold image_encoding_map
      simp [h1, h2, h3]
    refine ⟨createMsgs_decoded_none imgsz img hdr hsup, ?_⟩
    intro rate fid itn citn p rest
    exact loop_skip_of_none rate imgsz fid itn citn p _ rest
      (createMsgs_decoded_none imgsz img _ hsup)

/-- C7 witness: a 640x480 RGB image yields an "rgb8" record with
is_bigendian false and step = width * 3. -/
theorem c7_pixel_modes_witness :
    (⟨"RGB", 640, 480, []⟩ : PILImageData).mode = "RGB" ∧
    (∃ m ci, create_image_camera_info_messages none
        (FileOutcome.decoded ⟨"RGB", 640, 480, []⟩) ⟨0, 0, "cam"⟩ = some (m, ci) ∧
      m.encoding = "rgb8" ∧ m.is_bigendian = false ∧ m.step = m.width * 3) :=
  ⟨rfl, (c7_pixel_modes none ⟨"RGB", 640, 480, []⟩ ⟨0, 0, "cam"⟩).1 rfl⟩

/-! ## CLI size parsing and validation (src/img2bag/main) -/

def isSepChar (c : Char) : Bool := c == 'x' || c == ','

def isAsciiDigit (c : Char) : Bool := decide ('0' ≤ c ∧ c ≤ '9')

/-- Model of the regex `ImageSizeType = ^(?!0$)(?!0[x,])\d+(?:[x,](?!0$)\d+)?$`:
the string is digits, or digits-separator-digits with 'x' or ',' as
separator; the lookahead (?!0$) rejects the whole string "0", (?!0[x,])
rejects a first part that is exactly "0", and the (?!0$) after the separator
rejects a second part that is exactly "0".  Leading-zero forms such as "00"
pass every lookahead. -/
def imageSizeMatches (s : String) : Bool :=
  let cs := s.data
  let p1 := cs.takeWhile (fun c => !(isSepChar c))
  match cs.dropWhile (fun c => !(isSepChar c)) with
  | [] => !p1.isEmpty && p1.all isAsciiDigit && p1 != ['0']
  | _ :: p2 => !p1.isEmpty && p1.all isAsciiDigit && p1 != ['0']
      && !p2.isEmpty && p2.all isAsciiDigit && p2 != ['0']

/-- Split on a character predicate (model of `re.split(r'[x,]', s)`). -/
def splitChP (p : Char → Bool) : List Char → List (List Char)
  | [] => [[]]
  | c :: cs =>
    match splitChP p cs with
    | [] => [[]]
    | h :: t => if p c then [] :: h :: t else (c :: h) :: t

/-- Numeric value of a digit string (model of Python `int(...)` on the
validated, all-digit parts produced by the size regex). -/
def digitsToNat (ds : List Char) : ℕ :=
  ds.foldl (fun a c => a * 10 + (c.toNat - ('0').toNat)) 0

/-- Embedding of `_parse_image_size`: `None`/empty gives no resize, a single
number gives (n, 0), two numbers give (a, b). -/
def parse_image_size (s : Option String) : Option (ℤ × ℤ) :=
  match s with
  | none => none
  | some str =>
    if str = "" then none
    else
      match (splitChP isSepChar str.data).map (fun ds => (digitsToNat ds : ℤ)) with
      | [n] => some (n, 0)
      | a :: b :: _ => some (a, b)
      | [] => none

/-! ### Claim C6 -/

/-- C6 counterexample: the CLI size pattern rejects the claimed input "0,540"
(the lookahead (?!0[x,]) forbids a bare-zero width before the separator), so
"0,540" never reaches the resizer; meanwhile the leading-zero spelling
"00x00" is accepted and parses to (0, 0), so "both dimensions ≤ 0" is not
always rejected at configuration time. -/
theorem c6_counterexample :
    imageSizeMatches "0,540" = false ∧
    imageSizeMatches "640" = true ∧
    imageSizeMatches "00x00" = true ∧
    parse_image_size (some "00x00") = some (0, 0) ∧
    imageSizeMatches "0x0" = false := by decide

/-- C6 (amended): the resizer computes (floor(W*h/H), h) when the target width
w ≤ 0, (w, floor(H*w/W)) when the target height h ≤ 0, and (w, h) otherwise;
"640" parses to (640, 0) and resizes a 1920x1080 image to (640, 360); the CLI
pattern rejects the canonical zero forms "0", "0x0" and "0,540" at
configuration time, so height-only aspect preservation is reachable only via
leading-zero spellings such as "00,540", which parses to (0, 540) and resizes
1920x1080 to (960, 540); the accepted "00x00" parses to (0, 0) and resizes
to (0, 0). -/
theorem c6_resize_amended :
    (∀ (W H : ℤ) (s : ℤ × ℤ), 0 < W → 0 < H → s.1 ≤ 0 → 0 ≤ s.2 →
        resizeDims W H s = (⌊(W : ℚ) * (s.2 : ℚ) / (H : ℚ)⌋, s.2)) ∧
    (∀ (W H : ℤ) (s : ℤ × ℤ), 0 < W → 0 < H → 0 < s.1 → s.2 ≤ 0 →
        resizeDims W H s = (s.1, ⌊(H : ℚ) * (s.1 : ℚ) / (W : ℚ)⌋)) ∧
    (∀ (W H : ℤ) (s : ℤ × ℤ), 0 < s.1 → 0 < s.2 → resizeDims W H s = s) ∧
    parse_image_size (some "640") = some (640, 0) ∧
    resizeDims 1920 1080 (640, 0) = (640, 360) ∧
    imageSizeMatches "0,540" = false ∧
    imageSizeMatches "00,540" = true ∧
    parse_image_size (some "00,540") = some (0, 540) ∧
    resizeDims 1920 1080 (0, 540) = (960, 540) ∧
    imageSizeMatches "0" = false ∧
    imageSizeMatches "0x0" = false ∧
    imageSizeMatches "00x00" = true ∧
    resizeDims 1920 1080 (0, 0) = (0, 0) := by
  refine ⟨?_, ?_, ?_, by decide, ?_, by decide, by decide, by decide, ?_,
    by decide, by decide, by decide, ?_⟩
  · intro W H s hW hH h1 h2
    unfold resizeDims
    rw [if_pos h1, pyInt_of_nonneg]
    have hw : (0 : ℚ) ≤ (W : ℚ) := by exact_mod_cast le_of_lt hW
    have hh : (0 : ℚ) < (H : ℚ) := by exact_mod_cast hH
    have hs : (0 : ℚ) ≤ (s.2 : ℚ) := by exact_mod_cast h2
    positivity
  · intro W H s hW hH h1 h2
    unfold resizeDims
    rw [if_neg (not_le.2 h1), if_pos h2, pyInt_of_nonneg]
    have hw : (0 : ℚ) < (W : ℚ) := by exact_mod_cast hW
    have hh : (0 : ℚ) ≤ (H : ℚ) := by exact_mod_cast le_of_lt hH
    have hs : (0 : ℚ) ≤ (s.1 : ℚ) := by exact_mod_cast le_of_lt h1
    positivity
  · intro W H s h1 h2
    unfold resizeDims
    rw [if_neg (not_le.2 h1), if_neg (not_le.2 h2)]
  · norm_num [resizeDims, pyInt]
  · norm_num [resizeDims, pyInt]
  · norm_num [resizeDims, pyInt]

/-- C6 witness: the first amended branch instantiated at a 1920x1080 source
and target (0, 540). -/
theorem c6_resize_amended_witness :
    (0 : ℤ) < 1920 ∧ (0 : ℤ) < 1080 ∧ ((0, 540) : ℤ × ℤ).1 ≤ 0 ∧
    (0 : ℤ) ≤ ((0, 540) : ℤ × ℤ).2 ∧
    resizeDims 1920 1080 (0, 540) =
      (⌊((1920 : ℤ) : ℚ) * ((((0, 540) : ℤ × ℤ).2 : ℤ) : ℚ) / ((1080 : ℤ) : ℚ)⌋,
       ((0, 540) : ℤ × ℤ).2) :=
  ⟨by decide, by decide, by decide, by decide,
   c6_resize_amended.1 1920 1080 (0, 540) (by decide) (by decide) (by decide) (by decide)⟩

/-! ## The main pipeline as an effect trace (src/img2bag/main) -/

/-- Observable side effects of the run, in order: a directory-existence check
performed while parsing arguments (jsonargparse `path_type('dr')` validates
each `--directories` entry against the filesystem during `parse_args`),
opening the output container (`SequentialWriter.open`), and listing one image
directory (`Path.iterdir` / `rglob` in `_convert_image_to_topic`). -/
inductive MainEffect where
  | dirCheck (d : String)
  | openOutput
  | listDir (d : String)
  deriving DecidableEq, Repr

/-- CLI configuration relevant to claim C9. -/
structure CliConfig where
  directories : List String
  topics : List String
  camera_info_topic : String
  deriving Repr

/-- Directory validation during argument parsing: each directory is checked
in order against the filesystem `fs`; parsing fails at the first missing
directory. -/
def checkDirs (fs : String → Bool) : List String → List MainEffect × Bool
  | [] => ([], true)
  | d :: ds =>
    if fs d then
      ((MainEffect.dirCheck d) :: (checkDirs fs ds).1, (checkDirs fs ds).2)
    else ([MainEffect.dirCheck d], false)

/-- Effect trace and exit code of `main`: `parse_args` validates the
directories (filesystem checks), then `_parse_image_topic_pairs` raises
`ValueError` on mismatched list lengths — caught at top level, message on
stderr, return 1 — and only then the converter opens the output and
enumerates the directories. -/
def mainTrace (fs : String → Bool) (cfg : CliConfig) : List MainEffect × ℕ :=
  let checked := checkDirs fs cfg.directories
  if checked.2 = false then (checked.1, 1)
  else if cfg.directories.length ≠ cfg.topics.length then (checked.1, 1)
  else (checked.1 ++ MainEffect.openOutput :: cfg.directories.map MainEffect.listDir, 0)

theorem checkDirs_trace_only_dirChecks (fs : String → Bool) (ds : List String) :
    ∀ e ∈ (checkDirs fs ds).1, ∃ d, e = MainEffect.dirCheck d := by
  induction ds with
  | nil => intro e he; simp [checkDirs] at he
  | cons d ds ih =>
    intro e he
    by_cases hd : fs d
    · rw [checkDirs] at he
      rw [if_pos hd] at he
      rcases List.mem_cons.1 he with he | he
      · exact ⟨d, he⟩
      · exact ih e he
    · rw [checkDirs] at he
      rw [if_neg hd] at he
      rcases List.mem_cons.1 he with he | he
      · exact ⟨d, he⟩
      · simp at he

/-! ### Claim C9 -/

/-- C9 counterexample: with 2 existing directories and 3 topics the run does
exit with code 1 before opening any output, but the trace already contains
the two directory-existence checks performed while parsing the arguments, so
the failure does not precede every filesystem access. -/
theorem c9_counterexample :
    mainTrace (fun _ => true) ⟨["d1", "d2"], ["t1", "t2", "t3"], "camera_info"⟩ =
      ([MainEffect.dirCheck "d1", MainEffect.dirCheck "d2"], 1) ∧
    MainEffect.dirCheck "d1" ∈
      (mainTrace (fun _ => true) ⟨["d1", "d2"], ["t1", "t2", "t3"], "camera_info"⟩).1 := by
  constructor
  · rfl
  · rw [show mainTrace (fun _ => true) ⟨["d1", "d2"], ["t1", "t2", "t3"], "camera_info"⟩ =
        ([MainEffect.dirCheck "d1", MainEffect.dirCheck "d2"], 1) from rfl]
    simp

/-- C9 (amended): whenever the number of directories differs from the number
of topics, the run exits with code 1 before any output is created and before
any image directory is enumerated; the only filesystem effects that may
precede the failure are the directory-existence checks performed while the
arguments are parsed. -/
theorem c9_mismatch_amended (fs : String → Bool) (cfg : CliConfig)
    (h : cfg.directories.length ≠ cfg.topics.length) :
    (mainTrace fs cfg).2 = 1 ∧
    MainEffect.openOutput ∉ (mainTrace fs cfg).1 ∧
    (∀ d, MainEffect.listDir d ∉ (mainTrace fs cfg).1) := by
  unfold mainTrace
  by_cases hchk : (checkDirs fs cfg.directories).2 = false
  · rw [if_pos hchk]
    refine ⟨rfl, ?_, ?_⟩
    · intro hmem
      obtain ⟨d, hd⟩ := checkDirs_trace_only_dirChecks fs cfg.directories _ hmem
      exact MainEffect.noConfusion hd
    · intro d hmem
      obtain ⟨d2, hd⟩ := checkDirs_trace_only_dirChecks fs cfg.directories _ hmem
      exact MainEffect.noConfusion hd
  · rw [if_neg hchk, if_pos h]
    refine ⟨rfl, ?_, ?_⟩
    · intro hmem
      obtain ⟨d, hd⟩ := checkDirs_trace_only_dirChecks fs cfg.directories _ hmem
      exact MainEffect.noConfusion hd
    · intro d hmem
      obtain ⟨d2, hd⟩ := checkDirs_trace_only_dirChecks fs cfg.directories _ hmem
      exact MainEffect.noConfusion hd

/-- C9 witness: the amended statement instantiated at 2 directories, 3 topics
over a filesystem where every directory exists. -/
theorem c9_mismatch_amended_witness :
    (["d1", "d2"].length ≠ ["t1", "t2", "t3"].length) ∧
    (mainTrace (fun _ => true) ⟨["d1", "d2"], ["t1", "t2", "t3"], "camera_info"⟩).2 = 1 ∧
    MainEffect.openOutput ∉
      (mainTrace (fun _ => true) ⟨["d1", "d2"], ["t1", "t2", "t3"], "camera_info"⟩).1 :=
  ⟨by decide, (c9_mismatch_amended (fun _ => true)
      ⟨["d1", "d2"], ["t1", "t2", "t3"], "camera_info"⟩ (by decide)).1,
    (c9_mismatch_amended (fun _ => true)
      ⟨["d1", "d2"], ["t1", "t2", "t3"], "camera_info"⟩ (by decide)).2.1⟩

/-! ## File enumeration ordering

Model of the `natsorted(image_files, key=lambda s: (str(s.absolute()).replace(' ', '_'),
s.name), alg=natsort.ns.PATH | natsort.ns.IGNORECASE | natsort.ns.REAL)` call in
`_convert_image_to_topic`, built from natsort's documented semantics of those
flags: REAL tokenises maximal signed decimal numerals (regex
`[-+]?\d*\.?\d+([eE][-+]?\d+)?`, so an adjacent '-' or '+' is taken as a sign
and '.' as a decimal point), IGNORECASE casefolds the non-numeric chunks,
PATH splits the final path component into stem and suffix, and ties are
resolved by Python's stable sort.  The model covers the files of a single
directory: the shared absolute-directory prefix components compare equal, so
the order is decided by the (normalised stem, normalised suffix, plain stem,
plain suffix) token tuples modelled here.  Numeral values are held as exact
scaled integers. -/

/-- Exact decimal value `num / 10 ^ shift`. -/
structure DecNum where
  num : ℤ
  shift : ℕ
  deriving Repr

/-- One natsort token: a character chunk or a parsed numeral. -/
inductive NToken where
  | chunk (s : List Char)
  | number (v : DecNum)
  deriving Repr

def natCmp (a b : ℕ) : Ordering :=
  if a < b then Ordering.lt else if a = b then Ordering.eq else Ordering.gt

def charCmp (a b : Char) : Ordering := natCmp a.toNat b.toNat

def strCmpCh : List Char → List Char → Ordering
  | [], [] => Ordering.eq
  | [], _ :: _ => Ordering.lt
  | _ :: _, [] => Ordering.gt
  | a :: as, b :: bs =>
    match charCmp a b with
    | Ordering.eq => strCmpCh as bs
    | o => o

/-- Numeric comparison of exact decimals by cross multiplication. -/
def decCmp (a b : DecNum) : Ordering :=
  if a.num * 10 ^ b.shift < b.num * 10 ^ a.shift then Ordering.lt
  else if a.num * 10 ^ b.shift = b.num * 10 ^ a.shift then Ordering.eq
  else Ordering.gt

/-- Token comparison; a chunk against a number cannot occur between two
tokenised keys, whose lists always alternate starting with a chunk. -/
def tokCmp : NToken → NToken → Ordering
  | NToken.chunk a, NToken.chunk b => strCmpCh a b
  | NToken.number a, NToken.number b => decCmp a b
  | NToken.number _, NToken.chunk _ => Ordering.lt
  | NToken.chunk _, NToken.number _ => Ordering.gt

def listCmpWith (f : α → α → Ordering) : List α → List α → Ordering
  | [], [] => Ordering.eq
  | [], _ :: _ => Ordering.lt
  | _ :: _, [] => Ordering.gt
  | a :: as, b :: bs =>
    match f a b with
    | Ordering.eq => listCmpWith f as bs
    | o => o

def tokListCmp : List NToken → List NToken → Ordering := listCmpWith tokCmp

/-- Start of a REAL-mode numeral: a digit, a dot followed by a digit, or a
sign followed by either of those. -/
def numStart : List Char → Bool
  | [] => false
  | c :: rest =>
    isAsciiDigit c ||
    (c == '.' && (match rest with | r :: _ => isAsciiDigit r | [] => false)) ||
    ((c == '-' || c == '+') &&
      (match rest with
       | r :: rest2 =>
         isAsciiDigit r ||
           (r == '.' && (match rest2 with | r2 :: _ => isAsciiDigit r2 | [] => false))
       | [] => false))

/-- Maximal match of `\d*\.?\d+` (the mantissa must end with a digit, so a
trailing dot is not consumed). -/
def parseMantissa (cs : List Char) : DecNum × List Char :=
  let ip := cs.takeWhile isAsciiDigit
  let r1 := cs.dropWhile isAsciiDigit
  match r1 with
  | '.' :: r2 =>
    let fp := r2.takeWhile isAsciiDigit
    if fp.isEmpty then (⟨(digitsToNat ip : ℤ), 0⟩, r1)
    else (⟨(digitsToNat ip : ℤ) * 10 ^ fp.length + (digitsToNat fp : ℤ), fp.length⟩,
          r2.dropWhile isAsciiDigit)
  | _ => (⟨(digitsToNat ip : ℤ), 0⟩, r1)

def applyExpSigned (v : DecNum) (orig rest : List Char) (negExp : Bool) :
    DecNum × List Char :=
  let ds := rest.takeWhile isAsciiDigit
  if ds.isEmpty then (v, orig)
  else if negExp then (⟨v.num, v.shift + digitsToNat ds⟩, rest.dropWhile isAsciiDigit)
  else (⟨v.num * 10 ^ digitsToNat ds, v.shift⟩, rest.dropWhile isAsciiDigit)

/-- Optional `[eE][-+]?\d+` exponent applied to a parsed mantissa. -/
def applyExp (v : DecNum) (cs : List Char) : DecNum × List Char :=
  match cs with
  | 'e' :: '-' :: r2 => applyExpSigned v cs r2 true
  | 'e' :: '+' :: r2 => applyExpSigned v cs r2 false
  | 'e' :: r2 => applyExpSigned v cs r2 false
  | 'E' :: '-' :: r2 => applyExpSigned v cs r2 true
  | 'E' :: '+' :: r2 => applyExpSigned v cs r2 false
  | 'E' :: r2 => applyExpSigned v cs r2 false
  | _ => (v, cs)

/-- Parse one signed numeral starting at the head (assumes `numStart`). -/
def parseNumberFrom (cs : List Char) : DecNum × List Char :=
  match cs with
  | '-' :: r =>
    let m := parseMantissa r
    let e := applyExp m.1 m.2
    (⟨-(e.1.num), e.1.shift⟩, e.2)
  | '+' :: r =>
    let m := parseMantissa r
    applyExp m.1 m.2
  | _ =>
    let m := parseMantissa cs
    applyExp m.1 m.2

/-- Fuel-driven REAL tokeniser: alternating chunk, numeral, chunk, ... -/
def tokenizeAux : ℕ → List Char → List Char → List NToken
  | 0, acc, rest => [NToken.chunk (acc.reverse ++ rest)]
  | _ + 1, acc, [] => [NToken.chunk acc.reverse]
  | fuel + 1, acc, c :: cs =>
    if numStart (c :: cs) then
      let pr := parseNumberFrom (c :: cs)
      NToken.chunk acc.reverse :: NToken.number pr.1 :: tokenizeAux fuel [] pr.2
    else tokenizeAux fuel (c :: acc) cs

def tokenize (cs : List Char) : List NToken := tokenizeAux (cs.length + 1) [] cs

/-- IGNORECASE: casefold before tokenising (digits and signs unaffected). -/
def caseTokens (cs : List Char) : List NToken := tokenize (cs.map Char.toLower)

/-- PATH's split of a file name into stem and final suffix (as in pathlib:
a suffix needs a dot that is neither leading nor trailing). -/
def splitStemSuffix (cs : List Char) : List Char × List Char :=
  match cs.reverse.findIdx? (fun c => c == '.') with
  | none => (cs, [])
  | some j =>
    let k := cs.length - 1 - j
    if 0 < k ∧ k + 1 < cs.length then (cs.take k, cs.drop k) else (cs, [])

/-- The space-to-underscore normalisation `str(s.absolute()).replace(' ', '_')`
applies to the first key component (the space character only). -/
def replaceSpace (cs : List Char) : List Char :=
  cs.map (fun c => if c == ' ' then '_' else c)

/-- Sort key of one file name inside a fixed directory: tokenised
(stem, suffix) of the space-normalised name, then of the plain name. -/
def natsortFileKey (name : String) :
    (List NToken × List NToken) × (List NToken × List NToken) :=
  let s1 := splitStemSuffix (replaceSpace name.data)
  let s2 := splitStemSuffix name.data
  ((caseTokens s1.1, caseTokens s1.2), (caseTokens s2.1, caseTokens s2.2))

def keyCmp (a b : (List NToken × List NToken) × (List NToken × List NToken)) : Ordering :=
  match tokListCmp a.1.1 b.1.1 with
  | Ordering.eq =>
    match tokListCmp a.1.2 b.1.2 with
    | Ordering.eq =>
      match tokListCmp a.2.1 b.2.1 with
      | Ordering.eq => tokListCmp a.2.2 b.2.2
      | o => o
    | o => o
  | o => o

/-- Stable insertion respecting `keyCmp` (Python's `sorted` is stable). -/
def insertByKey (x : String) : List String → List String
  | [] => [x]
  | y :: ys =>
    if keyCmp (natsortFileKey x) (natsortFileKey y) = Ordering.gt then y :: insertByKey x ys
    else x :: y :: ys

/-- The enumerator's ordering of one directory's file names. -/
def natsortedModel : List String → List String
  | [] => []
  | x :: xs => insertByKey x (natsortedModel xs)

/-! ### The ordering algorithm as claim C5 words it -/

/-- Digit-run tokeniser transcribing claim C5's words: embedded digit runs
compared as numeric values, all other characters as text. -/
def claimTokenizeAux : ℕ → List Char → List Char → List NToken
  | 0, acc, rest => [NToken.chunk (acc.reverse ++ rest)]
  | _ + 1, acc, [] => [NToken.chunk acc.reverse]
  | fuel + 1, acc, c :: cs =>
    if isAsciiDigit c then
      NToken.chunk acc.reverse ::
        NToken.number ⟨(digitsToNat ((c :: cs).takeWhile isAsciiDigit) : ℤ), 0⟩ ::
        claimTokenizeAux fuel [] ((c :: cs).dropWhile isAsciiDigit)
    else claimTokenizeAux fuel (c :: acc) cs

def claimTokenize (cs : List Char) : List NToken := claimTokenizeAux (cs.length + 1) [] cs

/-- Whitespace-to-underscore normalisation as claim C5 words it. -/
def replaceWhitespace (cs : List Char) : List Char :=
  cs.map (fun c =>
    if c == ' ' || c == '\t' || c == '\n' || c == '\r' then '_' else c)

/-- Comparison transcribing claim C5's words: digit runs numeric,
case-insensitive, whitespace normalised to underscore, ties broken by the
unmodified file name. -/
def claimKeyCmp (a b : String) : Ordering :=
  match tokListCmp (claimTokenize ((replaceWhitespace a.data).map Char.toLower))
      (claimTokenize ((replaceWhitespace b.data).map Char.toLower)) with
  | Ordering.eq => strCmpCh a.data b.data
  | o => o

def claimInsert (x : String) : List String → List String
  | [] => [x]
  | y :: ys =>
    if claimKeyCmp x y = Ordering.gt then y :: claimInsert x ys
    else x :: y :: ys

/-- Sorting by the ordering algorithm exactly as claim C5 describes it. -/
def claimSortModel : List String → List String
  | [] => []
  | x :: xs => claimInsert x (claimSortModel xs)

/-! ### Claim C5 -/

/-- C5 counterexample: with REAL-mode tokenisation the '-' adjacent to a
numeral is parsed as a sign, so the enumerator orders "a-10.png" before
"a-2.png" (-10 < -2), while the claimed digit-run rule orders "a-2.png"
first (2 < 10): the described ordering algorithm is not the implemented one. -/
theorem c5_counterexample :
    natsortedModel ["a-2.png", "a-10.png"] = ["a-10.png", "a-2.png"] ∧
    claimSortModel ["a-2.png", "a-10.png"] = ["a-2.png", "a-10.png"] ∧
    natsortedModel ["a-2.png", "a-10.png"] ≠ claimSortModel ["a-2.png", "a-10.png"] := by
  decide

/-- C5 (amended): the enumerator orders file names by natural sort with
embedded signed decimal numerals compared as numeric values (an adjacent '-'
or '+' is taken as a sign and '.' as a decimal point, so a-10.png sorts
before a-2.png), case-insensitively, with the space character (only)
normalised to underscore for comparison; for plain digit-run names the claim
example holds: every listing order of img2.png, img10.png, img1.png is
enumerated as img1.png, img2.png, img10.png. -/
theorem c5_natural_sort_amended :
    natsortedModel ["img1.png", "img2.png", "img10.png"] =
      ["img1.png", "img2.png", "img10.png"] ∧
    natsortedModel ["img1.png", "img10.png", "img2.png"] =
      ["img1.png", "img2.png", "img10.png"] ∧
    natsortedModel ["img2.png", "img1.png", "img10.png"] =
      ["img1.png", "img2.png", "img10.png"] ∧
    natsortedModel ["img2.png", "img10.png", "img1.png"] =
      ["img1.png", "img2.png", "img10.png"] ∧
    natsortedModel ["img10.png", "img1.png", "img2.png"] =
      ["img1.png", "img2.png", "img10.png"] ∧
    natsortedModel ["img10.png", "img2.png", "img1.png"] =
      ["img1.png", "img2.png", "img10.png"] ∧
    natsortedModel ["a-2.png", "a-10.png"] = ["a-10.png", "a-2.png"] ∧
    natsortedModel ["a-10.png", "a-2.png"] = ["a-10.png", "a-2.png"] ∧
    natsortedModel ["Img1.png", "img2.PNG", "IMG10.png"] =
      ["Img1.png", "img2.PNG", "IMG10.png"] := by
  decide
